import Mathlib

/-!
Shallow embedding of the StreamDownloader backend core
(src/backend/app/download_service.py and src/backend/app/main.py):
the MissAV manifest-extraction pipeline, the packed-script unpacker,
the file classifier, the progress hook and the job result table,
together with proofs settling the specification claims against it.

Text is modelled as `List Char` (Python `str` compared by code points).
Python regular expressions are embedded through a small backtracking
matcher (`reMatch`) whose ordered alternation, greedy repetition and
leftmost-search behaviour mirror the `re` module; the classes `\w`,
`\s`, `\d` and case folding are modelled at ASCII precision, which is
exact on the byte-oriented inputs (page markup, URLs) the program
feeds them.  Python `float` rounding in the progress hook is modelled
by exact arithmetic on the matched decimal literal.
-/

/-- Characters of a string literal, the text representation used throughout. -/
def lc (s : String) : List Char := s.data

/-- Python `\s` (ASCII part): space, tab, newline, carriage return,
vertical tab, form feed. -/
def pyWs (c : Char) : Bool :=
  c = ' ' || c = '\t' || c = '\n' || c = '\r' || c = '\x0b' || c = '\x0c'

/-- Python `\w` (ASCII part): letters, digits, underscore. -/
def isWordChar (c : Char) : Bool := c.isAlphanum || c = '_'

/-- Drop characters satisfying `p` from both ends (Python `str.strip` family). -/
def stripBoth (p : Char → Bool) (l : List Char) : List Char :=
  ((l.dropWhile p).reverse.dropWhile p).reverse

/-- Python `str.strip()` (ASCII whitespace). -/
def stripWs (l : List Char) : List Char := stripBoth pyWs l

/-- Python `str.rstrip(c)` for a single character. -/
def rstripChar (c : Char) (l : List Char) : List Char :=
  (l.reverse.dropWhile (· == c)).reverse

/-- Python `str.strip("/")`. -/
def stripSlashes (l : List Char) : List Char := stripBoth (· == '/') l

/-- Python `str.split(sep)` for a one-character separator. -/
def splitChar (sep : Char) : List Char → List (List Char)
  | [] => [[]]
  | c :: rest =>
    match splitChar sep rest with
    | [] => [[]]
    | t :: ts => if c = sep then [] :: t :: ts else (c :: t) :: ts

/-- Index of the first occurrence of `needle` as a contiguous substring
(Python `str.find` when it succeeds). -/
def subIndex (needle : List Char) : List Char → Option Nat
  | [] => if needle.isEmpty then some 0 else none
  | c :: t =>
    if needle.isPrefixOf (c :: t) then some 0 else (subIndex needle t).map (· + 1)

/-- Text before the first occurrence of `needle`, the whole text if absent
(Python `s.split(needle)[0]`). -/
def takeBeforeSub (needle hay : List Char) : List Char :=
  match subIndex needle hay with
  | some i => hay.take i
  | none => hay

/-- Text after the first occurrence of `needle`, `none` if absent
(Python `s.split(needle)[1]` raises IndexError exactly when this is `none`,
except that the Python segment also stops at the next occurrence). -/
def dropThroughSub (needle hay : List Char) : Option (List Char) :=
  (subIndex needle hay).map (fun i => hay.drop (i + needle.length))

/-- Python `needle in hay` (substring containment). -/
def containsSub (needle hay : List Char) : Bool := (subIndex needle hay).isSome

/-- Worker for `replaceSub`; the fuel is the length of the remaining text,
each step consumes at least one character. -/
def replaceSubGo (needle repl : List Char) : Nat → List Char → List Char
  | 0, l => l
  | _ + 1, [] => []
  | f + 1, c :: t =>
    if !needle.isEmpty && needle.isPrefixOf (c :: t) then
      repl ++ replaceSubGo needle repl f (t.drop (needle.length - 1))
    else c :: replaceSubGo needle repl f t

/-- Python `str.replace` for a non-empty needle: non-overlapping,
left-to-right. -/
def replaceSub (needle repl hay : List Char) : List Char :=
  replaceSubGo needle repl hay.length hay

/-- Python list indexing with negative-index wrap-around; `none` exactly when
Python raises IndexError. -/
def pyGetI {α} (l : List α) (k : Int) : Option α :=
  if 0 ≤ k then l[k.toNat]?
  else if (-k).toNat ≤ l.length then l[l.length - (-k).toNat]? else none

/-- Normalise a Python slice bound against a list length. -/
def pyBound (len : Nat) (k : Int) : Nat :=
  if k < 0 then (if len ≤ (-k).toNat then 0 else len - (-k).toNat)
  else min k.toNat len

/-- Python slice `l[a:b]` with clamping and negative bounds; never raises. -/
def pySliceI {α} (l : List α) (a b : Int) : List α :=
  (l.take (pyBound l.length b)).drop (pyBound l.length a)

/-- Index of the last occurrence of character `c` (Python `str.rfind`
when it succeeds). -/
def lastIdxOf (c : Char) (l : List Char) : Option Nat :=
  (subIndex [c] l.reverse).map (fun i => l.length - 1 - i)

/-! ### A small backtracking regular-expression matcher

Continuation-passing backtracking with ordered alternation and greedy
repetition, the disambiguation policy of the Python `re` module.  A
repetition iteration is required to consume at least one character, as in
`re` (none of the embedded patterns ever has a nullable repetition body).
Group captures record the consumed text on the success path only, so
backtracking discards them exactly as `re` does.
-/

/-- Captures recorded while matching: `(group index, captured text)`,
most recent first. -/
abbrev Caps := List (Nat × List Char)

/-- First (most recently recorded) capture for group `n`. -/
def getCap (n : Nat) : Caps → Option (List Char)
  | [] => none
  | (m, s) :: t => if m = n then some s else getCap n t

/-- Regular expressions: character class, sequence, ordered alternation,
greedy star, capture group. -/
inductive RE where
  | eps : RE
  | cls (p : Char → Bool) : RE
  | seq (a b : RE) : RE
  | alt (a b : RE) : RE
  | starG (a : RE) : RE
  | group (n : Nat) (a : RE) : RE

/-- Ordered choice on results: the first success wins (backtracking order). -/
def obFirst {α} (x y : Option α) : Option α :=
  match x with
  | some r => some r
  | none => y

/-- Greedy star loop: try one more iteration of the body first, fall back to
the continuation; an iteration must consume input.  The fuel starts at
`length + 1`, enough for any number of non-empty iterations. -/
def starLoop {α} (m : List Char → Caps → (List Char → Caps → Option α) → Option α) :
    Nat → List Char → Caps → (List Char → Caps → Option α) → Option α
  | 0, cs, caps, k => k cs caps
  | f + 1, cs, caps, k =>
    match m cs caps (fun cs' caps' =>
        if cs'.length < cs.length then starLoop m f cs' caps' k else none) with
    | some r => some r
    | none => k cs caps

/-- Backtracking matcher in continuation-passing style.  `reMatch r cs caps k`
tries to match a prefix of `cs` against `r`, calling `k` on the remaining
input and updated captures; alternatives are tried in the order `re` does. -/
def reMatch {α} : RE → List Char → Caps → (List Char → Caps → Option α) → Option α
  | .eps, cs, caps, k => k cs caps
  | .cls p, cs, caps, k =>
    match cs with
    | [] => none
    | c :: rest => if p c then k rest caps else none
  | .seq a b, cs, caps, k => reMatch a cs caps (fun cs' caps' => reMatch b cs' caps' k)
  | .alt a b, cs, caps, k => obFirst (reMatch a cs caps k) (reMatch b cs caps k)
  | .starG a, cs, caps, k => starLoop (reMatch a) (cs.length + 1) cs caps k
  | .group n a, cs, caps, k =>
    reMatch a cs caps (fun cs' caps' =>
      k cs' ((n, cs.take (cs.length - cs'.length)) :: caps'))

/-- Match anchored at the start; returns the rest of the input and captures. -/
def reMatchHere (r : RE) (cs : List Char) : Option (List Char × Caps) :=
  reMatch r cs [] (fun rest caps => some (rest, caps))

/-- Leftmost search from position `i` (worker for `reSearch`). -/
def reSearchFrom (r : RE) : Nat → List Char → Option (Nat × List Char × Caps)
  | i, [] =>
    match reMatchHere r [] with
    | some (_, caps) => some (i, [], caps)
    | none => none
  | i, c :: t =>
    match reMatchHere r (c :: t) with
    | some (rest, caps) =>
      some (i, (c :: t).take ((c :: t).length - rest.length), caps)
    | none => reSearchFrom r (i + 1) t

/-- Python `re.search`: leftmost match; returns start index, the matched text
(group 0) and the captures. -/
def reSearch (r : RE) (cs : List Char) : Option (Nat × List Char × Caps) :=
  reSearchFrom r 0 cs

/-- Single literal character. -/
def chrP (c : Char) : RE := .cls (· == c)

/-- Single literal character under `re.I` (ASCII case folding). -/
def ciChr (c : Char) : RE := .cls (fun d => d.toLower == c.toLower)

/-- Literal string. -/
def litP (s : List Char) : RE := s.foldr (fun c r => .seq (chrP c) r) .eps

/-- Literal string under `re.I`. -/
def ciLit (s : List Char) : RE := s.foldr (fun c r => .seq (ciChr c) r) .eps

/-- Sequence of patterns. -/
def reCat (l : List RE) : RE := l.foldr .seq .eps

/-- Greedy `+`. -/
def plusP (a : RE) : RE := .seq a (.starG a)

/-- Greedy `?`. -/
def optP (a : RE) : RE := .alt a .eps

/-- `\s*`. -/
def wsStar : RE := .starG (.cls pyWs)

/-- `\d` (ASCII). -/
def digitP : RE := .cls Char.isDigit

/-! ### The concrete patterns of download_service.py -/

/-- `[^']`. -/
def notQuote : RE := .cls (fun c => c != '\'')

/-- `[^']+(?:\|[^']+)+`: a quote-free run decomposable around at least one
pipe, the dictionary shape. -/
def pipeSegs : RE := .seq (plusP notQuote) (plusP (.seq (chrP '|') (plusP notQuote)))

/-- `\.split\s*\(\s*'\|'\s*\)`. -/
def splitCallTail : RE :=
  reCat [litP (lc ".split"), wsStar, chrP '(', wsStar, litP (lc "'|'"), wsStar, chrP ')']

/-- `(?:[^'\\]|\\.)*`: packed-code body, backslash escapes tolerated
(`.` does not match a newline, as in `re` without DOTALL). -/
def packedBody : RE :=
  .starG (.alt (.cls (fun c => c != '\'' && c != '\\'))
               (.seq (chrP '\\') (.cls (fun c => c != '\n'))))

/-- Main packed-eval pattern of `_extract_missav_m3u8_from_packed`:
`\}\s*\(\s*'((?:[^'\\]|\\.)*)',\s*\d+\s*,\s*\d+\s*,\s*'([^']+(?:\|[^']+)+)'\.split\s*\(\s*'\|'\s*\)`. -/
def reMainPacked : RE :=
  reCat [chrP '}', wsStar, chrP '(', wsStar, chrP '\'', .group 1 packedBody,
         chrP '\'', chrP ',', wsStar, plusP digitP, wsStar, chrP ',', wsStar,
         plusP digitP, wsStar, chrP ',', wsStar, chrP '\'', .group 2 pipeSegs,
         chrP '\'', splitCallTail]

/-- Fallback packed pattern:
`'((?:[^'\\]|\\.)*');\s*,\s*\d+\s*,\s*\d+\s*,\s*'m3u8\|[^']*'\.split\s*\(\s*'\|'\s*\)`.
The quote before `);` sits inside group 1 — the paren is the group-closing
metacharacter, not a literal — so the matched text has the shape `'<body>';`
and the captured packed string ends with that quote. -/
def reFallbackPacked : RE :=
  reCat [chrP '\'', .group 1 (.seq packedBody (chrP '\'')), chrP ';', wsStar,
         chrP ',', wsStar, plusP digitP, wsStar, chrP ',', wsStar, plusP digitP,
         wsStar, chrP ',', wsStar, litP (lc "'m3u8|"), .starG notQuote,
         chrP '\'', splitCallTail]

/-- Fallback dictionary pattern:
`'m3u8\|[^']+(?:\|[^']+)+'\.split\s*\(\s*'\|'\s*\)` (group 0 is used). -/
def reFallbackDict : RE :=
  reCat [litP (lc "'m3u8|"), pipeSegs, chrP '\'', splitCallTail]

/-- Dictionary-only pattern of `_extract_missav_m3u8_from_dict_only`:
`'m3u8\|([^']+(?:\|[^']+)+)'\.split\s*\(\s*'\|'\s*\)`. -/
def reDictOnly : RE :=
  reCat [litP (lc "'m3u8|"), .group 1 pipeSegs, chrP '\'', splitCallTail]

/-- `[^\s'\"<>]`, the URL body class. -/
def urlBodyChar : RE :=
  .cls (fun c => !pyWs c && c != '\'' && c != '"' && c != '<' && c != '>')

/-- `https?://[^\s'\"<>]+\.m3u8`, searched in unpacked code. -/
def reM3u8Url : RE :=
  reCat [litP (lc "http"), optP (chrP 's'), litP (lc "://"), plusP urlBodyChar,
         litP (lc ".m3u8")]

/-- `https?://[^\s"\'<>]+\.m3u8[^\s"\'<>]*`, the generic page scan. -/
def reM3u8UrlLoose : RE := .seq reM3u8Url (.starG urlBodyChar)

/-- `(\d+(?:\.\d+)?)\s*%`, the percent string of the progress hook. -/
def rePercent : RE :=
  reCat [.group 1 (.seq (plusP digitP) (optP (.seq (chrP '.') (plusP digitP)))),
         wsStar, chrP '%']

/-- `["\']`. -/
def quoteCls : RE := .cls (fun c => c == '"' || c == '\'')

/-- `[^>]`. -/
def notGt : RE := .cls (fun c => c != '>')

/-- `[^"\']`. -/
def notAnyQuote : RE := .cls (fun c => c != '"' && c != '\'')

/-- `<meta[^>]+property=["\']<prop>["\'][^>]+content=["\']([^"\']*)["\']`
under `re.I`, the og-metadata pattern of `_extract_og_meta`. -/
def reOgMeta (prop : String) : RE :=
  reCat [ciLit (lc "<meta"), plusP notGt, ciLit (lc "property="), quoteCls,
         ciLit (lc prop), quoteCls, plusP notGt, ciLit (lc "content="), quoteCls,
         .group 1 (.starG notAnyQuote), quoteCls]

/-- `MISSAV_URL_RE`: `https?://(?:www\.)?missav\.(?:ai|ws)/` under `re.I`.
Every piece is a case-insensitive literal: on characters that are not ASCII
letters, case folding is the identity, so `ciLit` on `://`, `.` and `/`
matches exactly the literal character, as the pattern does. -/
def reMissavUrl : RE :=
  reCat [ciLit (lc "http"), optP (ciLit (lc "s")), ciLit (lc "://"),
         optP (ciLit (lc "www.")), ciLit (lc "missav."),
         .alt (ciLit (lc "ai")) (ciLit (lc "ws")), ciLit (lc "/")]

/-! ### download_service.py definitions -/

/-- `MISSAV_STRIP_SUFFIXES`. -/
def MISSAV_STRIP_SUFFIXES : List (List Char) :=
  [lc "-uncensored-leak", lc "-uncensored", lc "-leak"]

/-- `_is_missav_url`: `bool(MISSAV_URL_RE.match(url.strip()))` — the regex is
anchored at the start by `re.match` and unanchored at the end. -/
def _is_missav_url (url : List Char) : Bool :=
  (reMatchHere reMissavUrl (stripWs url)).isSome

/-- Where `download_video_with_subs` sends a request. -/
inductive DispatchTarget where
  | missav : DispatchTarget
  | delegate : DispatchTarget
deriving DecidableEq

/-- The dispatch decision of `download_video_with_subs`:
`if _is_missav_url(url): ... else: ...`. -/
def dispatchTarget (url : List Char) : DispatchTarget :=
  if _is_missav_url url then .missav else .delegate

/-- Scheme characters accepted by CPython `urlsplit`. -/
def schemeChar (c : Char) : Bool := c.isAlphanum || c = '+' || c = '-' || c = '.'

/-- Remove a leading `scheme:` as CPython `urlsplit` does: the text before the
first colon must be non-empty, start with an ASCII letter and consist of
scheme characters. -/
def urlAfterScheme (u : List Char) : List Char :=
  match subIndex [':'] u with
  | none => u
  | some i =>
    if 0 < i && (u.take i).all schemeChar &&
        (match u.head? with | some c => c.isAlpha | none => false) then
      u.drop (i + 1)
    else u

/-- Remove a leading `//netloc` as CPython `urlsplit` does: everything up to
the next `/`, `?` or `#`. -/
def urlDropNetloc (u : List Char) : List Char :=
  if (lc "//").isPrefixOf u then
    (u.drop 2).dropWhile (fun c => c != '/' && c != '?' && c != '#')
  else u

/-- The `path` component of `urlparse`: fragment split off at the first `#`,
scheme and netloc removed, query split off at the first `?`.  (`urlparse`
additionally splits `;params` off the last segment; no MissAV URL contains
`;`, so that step is not modelled.) -/
def pyUrlPath (u : List Char) : List Char :=
  takeBeforeSub (lc "?") (urlDropNetloc (urlAfterScheme (takeBeforeSub (lc "#") u)))

/-- The characters replaced by `sanitize_filename`: `[<>:"/\\|?*]`. -/
def badFsChar (c : Char) : Bool :=
  c = '<' || c = '>' || c = ':' || c = '"' || c = '/' || c = '\\' ||
  c = '|' || c = '?' || c = '*'

/-- `sanitize_filename`: replace disallowed filesystem characters by `_`,
strip whitespace, fall back to `"video"` when empty. -/
def sanitize_filename (name : List Char) : List Char :=
  let s := stripWs (name.map (fun c => if badFsChar c then '_' else c))
  if s.isEmpty then lc "video" else s

/-- The suffix-stripping loop of `_missav_filename_from_url`: only the first
matching suffix is removed, then trailing dashes are stripped. -/
def stripKnownSuffix : List (List Char) → List Char → List Char
  | [], seg => seg
  | suf :: rest, seg =>
    if suf.isSuffixOf seg then rstripChar '-' (seg.take (seg.length - suf.length))
    else stripKnownSuffix rest seg

/-- `_missav_filename_from_url`: last non-empty path segment of the URL,
known suffixes removed, sanitised, with `"video"` fallbacks. -/
def _missav_filename_from_url (url : List Char) : List Char :=
  let path := stripSlashes (pyUrlPath (stripWs url))
  if path.isEmpty then lc "video"
  else
    let segment := (splitChar '/' path).getLastD []
    let r := sanitize_filename (stripKnownSuffix MISSAV_STRIP_SUFFIXES segment)
    if r.isEmpty then lc "video" else r

/-- The single-character codes substituted by the unpacker: `[0-9a-e]`. -/
def isSubCode (c : Char) : Bool :=
  ('0' ≤ c && c ≤ '9') || ('a' ≤ c && c ≤ 'e')

/-- The replacement function `repl` inside `_unpack_missav_packed_js`:
digits address indices 0–9, `a`–`e` address 10–14; an index at or past the
dictionary length leaves the character unchanged. -/
def unpackRepl (parts : List (List Char)) (c : Char) : List Char :=
  if c.isDigit then
    (if c.toNat - '0'.toNat < parts.length then parts.getD (c.toNat - '0'.toNat) [c] else [c])
  else if 'a' ≤ c && c ≤ 'e' then
    (if 10 + (c.toNat - 'a'.toNat) < parts.length then
      parts.getD (10 + (c.toNat - 'a'.toNat)) [c] else [c])
  else [c]

/-- A `\b` word boundary next to a word character: satisfied by the text edge
or by a non-word neighbour. -/
def okBoundary : Option Char → Bool
  | none => true
  | some c => !isWordChar c

/-- The substitution loop of `re.sub(r"\b([0-9a-e])\b", repl, packed)`.
Since every match is a single word character with `\b` on both sides, and
`re.sub` scans the original text left to right, the substitution is exactly
this per-character pass with the neighbours of the original text deciding
the boundaries. -/
def unpackGo (parts : List (List Char)) : Option Char → List Char → List Char
  | _, [] => []
  | prev, c :: rest =>
    (if isSubCode c && okBoundary prev && okBoundary rest.head? then
      unpackRepl parts c
    else [c]) ++ unpackGo parts (some c) rest

/-- `_unpack_missav_packed_js`. -/
def _unpack_missav_packed_js (packed dict_str : List Char) : List Char :=
  unpackGo (splitChar '|' dict_str) none packed

/-- The `(packed, dict_str)` pair located by `_extract_missav_m3u8_from_packed`:
main pattern first, then the fallback pattern whose dictionary is re-located
from the fallback match start onwards, trimmed at `'.split` (Python `find`
returning -1 drops the last character), stripped of a leading quote, and
required to contain `https`. -/
def packedPair (webpage : List Char) : Option (List Char × List Char) :=
  match reSearch reMainPacked webpage with
  | some (_, _, caps) =>
    match getCap 1 caps, getCap 2 caps with
    | some p, some d => some (p, d)
    | _, _ => none
  | none =>
    match reSearch reFallbackPacked webpage with
    | none => none
    | some (start, _, caps) =>
      match getCap 1 caps with
      | none => none
      | some packed =>
        match reSearch reFallbackDict (webpage.drop start) with
        | none => none
        | some (_, g0, _) =>
          let ds :=
            match subIndex (lc "'.split") g0 with
            | some i => g0.take i
            | none => g0.take (g0.length - 1)
          let ds := if (lc "'").isPrefixOf ds then ds.drop 1 else ds
          if containsSub (lc "https") ds then some (packed, ds) else none

/-- `_extract_missav_m3u8_from_packed`: unpack the located pair and return the
first manifest URL in the unpacked text. -/
def _extract_missav_m3u8_from_packed (webpage : List Char) : Option (List Char) :=
  match packedPair webpage with
  | none => none
  | some (packed, dict_str) =>
    match reSearch reM3u8Url (_unpack_missav_packed_js packed dict_str) with
    | some (_, g0, _) => some g0
    | none => none

/-- The token-list processing of `_extract_missav_m3u8_from_dict_only` after a
successful pattern match.  `parts.index("https")` cannot raise under the
membership guard and slicing never raises, so the `except` branch of the
source is unreachable. -/
def dictOnlyFromParts (parts : List (List Char)) : Option (List Char) :=
  if parts.contains (lc "https") && parts.contains (lc "playlist") then
    match parts.findIdx? (· == lc "https") with
    | none => none
    | some idx_https =>
      match parts.findIdx? (· == lc "com") with
      | none => none
      | some idx_com =>
        if idx_com ≥ idx_https || idx_https - idx_com < 2 then none
        else
          let base := List.intercalate (lc ".") (pySliceI parts idx_com idx_https).reverse
          if 6 ≤ parts.length then
            some (lc "https://" ++ base ++ lc "/" ++
              List.intercalate (lc "-") (pySliceI parts 1 6).reverse ++
              lc "/playlist.m3u8")
          else none
  else none

/-- `_extract_missav_m3u8_from_dict_only`. -/
def _extract_missav_m3u8_from_dict_only (webpage : List Char) : Option (List Char) :=
  match reSearch reDictOnly webpage with
  | none => none
  | some (_, _, caps) =>
    match getCap 1 caps with
    | none => none
    | some g => dictOnlyFromParts (splitChar '|' (lc "m3u8|" ++ g))

/-- The legacy-strategy computation on the split token list
(`url_words` in `_extract_missav_m3u8_and_title`).  Python negative indexing
wraps around; an out-of-range index raises IndexError, caught by the
surrounding `except`, which makes the strategy yield nothing. -/
def legacyCore (url_words : List (List Char)) : Option (List Char) :=
  match url_words.findIdx? (· == lc "video") with
  | none => none
  | some vi =>
    match pyGetI url_words ((vi : Int) - 1), pyGetI url_words ((vi : Int) + 1),
        pyGetI url_words (vi : Int) with
    | some protocol, some video_format, some video_word =>
      some (protocol ++ lc "://" ++
        List.intercalate (lc ".") (pySliceI url_words 5 ((vi : Int) - 1)).reverse ++
        lc "/" ++
        List.intercalate (lc "-") (pySliceI url_words 0 5).reverse ++
        lc "/" ++ video_format ++ lc "/" ++ video_word ++ lc ".m3u8")
    | _, _, _ => none

/-- The legacy delimited strategy (step 3 of `_extract_missav_m3u8_and_title`):
`webpage.split("m3u8|")[1]` is the text between the first and second
occurrences of `m3u8|` (IndexError — hence nothing — when absent), then
everything before `|playlist|source`, split on `|`. -/
def legacyDelimited (webpage : List Char) : Option (List Char) :=
  match dropThroughSub (lc "m3u8|") webpage with
  | none => none
  | some afterFirst =>
    legacyCore (splitChar '|'
      (takeBeforeSub (lc "|playlist|source") (takeBeforeSub (lc "m3u8|") afterFirst)))

/-- The generic scan (step 4): collapse `\/` escapes, take the first loose
manifest URL, strip trailing backslashes and surrounding whitespace. -/
def missavGenericScan (webpage : List Char) : Option (List Char) :=
  match reSearch reM3u8UrlLoose (replaceSub (lc "\\/") (lc "/") webpage) with
  | some (_, g0, _) => some (stripWs (rstripChar '\\' g0))
  | none => none

/-- Python truthiness of an optional string: an empty string is falsy, so the
`if not m3u8_url` guards treat `some ""` like `none`. -/
def truthyOpt : Option (List Char) → Option (List Char)
  | some [] => none
  | x => x

/-- The four-strategy fallback chain computing `m3u8_url` in
`_extract_missav_m3u8_and_title` (lines 208–239): packed eval, then
dictionary-only, then legacy delimited, then generic scan; each `if not
m3u8_url` re-check is Python truthiness. -/
def missavM3u8Chain (webpage : List Char) : Option (List Char) :=
  match truthyOpt (_extract_missav_m3u8_from_packed webpage) with
  | some u => some u
  | none =>
    match truthyOpt (_extract_missav_m3u8_from_dict_only webpage) with
    | some u => some u
    | none =>
      match truthyOpt (legacyDelimited webpage) with
      | some u => some u
      | none => truthyOpt (missavGenericScan webpage)

/-- One og-metadata value: group 1 of the pattern, stripped, empty → absent. -/
def ogMetaValue (prop : String) (webpage : List Char) : Option (List Char) :=
  match reSearch (reOgMeta prop) webpage with
  | none => none
  | some (_, _, caps) =>
    match getCap 1 caps with
    | none => none
    | some g => let s := stripWs g; if s.isEmpty then none else some s

/-- `_extract_og_meta`. -/
def _extract_og_meta (webpage : List Char) : Option (List Char) × Option (List Char) :=
  (ogMetaValue "og:title" webpage, ogMetaValue "og:description" webpage)

/-- `_extract_missav_m3u8_and_title`: the strategy chain for the manifest URL,
the URL-derived title, and the og metadata; `none` when all strategies fail. -/
def _extract_missav_m3u8_and_title (webpage page_url : List Char) :
    Option (List Char × List Char × Option (List Char) × Option (List Char)) :=
  match missavM3u8Chain webpage with
  | none => none
  | some u =>
    some (u, _missav_filename_from_url page_url,
      (_extract_og_meta webpage).1, (_extract_og_meta webpage).2)

/-! ### File classifier -/

/-- `VIDEO_EXTS`. -/
def VIDEO_EXTS : List (List Char) :=
  [lc ".mp4", lc ".mkv", lc ".webm", lc ".avi", lc ".mov", lc ".flv", lc ".m4a"]

/-- `SUB_EXTS`. -/
def SUB_EXTS : List (List Char) := [lc ".srt", lc ".vtt", lc ".ass", lc ".ssa"]

/-- Python `Path.suffix`: the dotted extension of the final path component,
empty when the dot is leading or trailing or absent. -/
def pathSuffix (p : List Char) : List Char :=
  let name := (splitChar '/' p).getLastD []
  match lastIdxOf '.' name with
  | none => []
  | some i => if 0 < i && i + 1 < name.length then name.drop i else []

/-- `f.suffix.lower()`. -/
def extLower (p : List Char) : List Char := (pathSuffix p).map Char.toLower

/-- Lexicographic order on paths by code points — Python `sorted` compares
`Path` objects by their string form on POSIX. -/
def pathLe : List Char → List Char → Bool
  | [], _ => true
  | _ :: _, [] => false
  | a :: as, b :: bs => if a = b then pathLe as bs else decide (a < b)

/-- Insertion into a sorted list. -/
def insertPath (x : List Char) : List (List Char) → List (List Char)
  | [] => [x]
  | y :: ys => if pathLe x y then x :: y :: ys else y :: insertPath x ys

/-- Python `sorted(files)`. -/
def sortPaths (l : List (List Char)) : List (List Char) := l.foldr insertPath []

/-- The scanning loop of `_split_video_and_subs`: the first media-extension
file becomes the video, every subtitle-extension file is appended; the
filesystem is abstracted by the `isFile` predicate (a function of the path). -/
def splitGo (isFile : List Char → Bool) :
    List (List Char) → Option (List Char) → List (List Char) →
    Option (List Char) × List (List Char)
  | [], v, s => (v, s)
  | f :: rest, v, s =>
    if !isFile f then splitGo isFile rest v s
    else
      if VIDEO_EXTS.contains (extLower f) && v.isNone then
        splitGo isFile rest (some f) s
      else if SUB_EXTS.contains (extLower f) then splitGo isFile rest v (s ++ [f])
      else splitGo isFile rest v s

/-- `_split_video_and_subs`. -/
def _split_video_and_subs (isFile : List Char → Bool) (files : List (List Char)) :
    Option (List Char) × List (List Char) :=
  splitGo isFile (sortPaths files) none []

/-! ### Progress hook and job-level models (main.py, download_service.py) -/

/-- The fields of the yt-dlp progress event dictionary read by the hook.
Byte counts and fragment numbers are the non-negative integers yt-dlp
reports.  An absent dictionary key is `none`; Python truthiness additionally
treats `0` and the empty string as false. -/
structure DlEvent where
  status : Option (List Char)
  total_bytes : Option Nat
  downloaded_bytes : Option Nat
  percent_str : Option (List Char)
  fragment_count : Option Nat
  fragment_index : Option Nat

/-- Decimal digits to a number. -/
def digitsToNat (l : List Char) : Nat :=
  l.foldl (fun acc c => acc * 10 + (c.toNat - '0'.toNat)) 0

/-- `int(float(g) + 0.5)` for a matched group of shape `\d+(\.\d+)?`,
computed exactly on the decimal literal: add one when the fractional part is
at least a half. -/
def pyRoundHalfUp (g : List Char) : Nat :=
  match subIndex ['.'] g with
  | none => digitsToNat g
  | some i =>
    digitsToNat (g.take i) +
      (if 10 ^ (g.drop (i + 1)).length ≤ 2 * digitsToNat (g.drop (i + 1)) then 1 else 0)

/-- Decimal rendering of a number, for the `f"{pct}%"` message. -/
def natToDec (n : Nat) : List Char := (Nat.repr n).data

/-- The `downloading`-without-total branch of the hook: percent from the
percent string when it parses, else from `fragment_index * 100 /
fragment_count` when the count is truthy, positive and the index present,
else 0. -/
def hookNoTotal (d : DlEvent) : Option (Nat × List Char) :=
  let msg := (truthyOpt d.percent_str).getD (lc "下載中…")
  let pct :=
    match reSearch rePercent ((truthyOpt d.percent_str).getD []) with
    | some (_, _, caps) =>
      match getCap 1 caps with
      | some g => min 100 (pyRoundHalfUp g)
      | none => 0
    | none =>
      match d.fragment_count, d.fragment_index with
      | some fc, some fi => if fc ≠ 0 then (if 0 < fc then min 100 (fi * 100 / fc) else 0) else 0
      | _, _ => 0
  some (pct, msg)

/-- What the progress hook built by `_progress_hook_factory` passes to the
callback for one event; `none` when the callback is not invoked.  With a
truthy total, percent is `min(100, downloaded * 100 / total)` (the byte
counts make the float division exact in range); a `finished` event snaps to
100. -/
def hookEmit (d : DlEvent) : Option (Nat × List Char) :=
  if d.status == some (lc "downloading") then
    match d.total_bytes with
    | some t =>
      if t ≠ 0 then
        let pct := min 100 ((d.downloaded_bytes.getD 0) * 100 / t)
        some (pct, (truthyOpt d.percent_str).getD (natToDec pct ++ lc "%"))
      else hookNoTotal d
    | none => hookNoTotal d
  else if d.status == some (lc "finished") then some (100, lc "合併檔案中…")
  else none

/-- The job progress stored by `_run_download_job`: reset to 0 at start, then
`progress_cb` overwrites it with `min(100, percent)` on every callback. -/
def progressFold (events : List DlEvent) : Nat :=
  events.foldl
    (fun p e => match hookEmit e with | some (pct, _) => min 100 pct | none => p) 0

/-- `str(DownloadCancelled())`: the exception is raised with no arguments, so
its string form — stored by `_run_download_job` as the job message — is
empty. -/
def downloadCancelledText : List Char := []

/-- Modelled from the spec: the delegate download capability invokes the
progress hook synchronously once per transfer event; an exception raised by
the hook aborts the transfer at once and propagates (the delegate library
itself is an external collaborator, not part of src/).  The hook of
`_progress_hook_factory` raises `DownloadCancelled` before reading the event
whenever the predicate fires, so a fired event contributes no callback.
Returns the delivered callbacks and whether cancellation fired. -/
def runHookLoop (cancelled : Nat → Bool) :
    Nat → List DlEvent → List (Nat × List Char) × Bool
  | _, [] => ([], false)
  | i, e :: rest =>
    if cancelled i then ([], true)
    else
      let r := runHookLoop cancelled (i + 1) rest
      ((hookEmit e).toList ++ r.1, r.2)

/-- The terminal bookkeeping of `_run_download_job` for a cancelled transfer:
the propagated exception is caught by the generic handler, which sets
`status = "error"` and `message = str(e)`.  The second component is that
terminal pair when cancellation fired, `none` when the transfer ran to the
end of the event stream. -/
def jobCancelOutcome (cancelled : Nat → Bool) (events : List DlEvent) :
    List (Nat × List Char) × Option (List Char × List Char) :=
  let r := runHookLoop cancelled 0 events
  (r.1, if r.2 then some (lc "error", downloadCancelledText) else none)

/-! ### The transient result table (main.py) -/

/-- One `_job_results` entry, as filled by `_run_download_job`. -/
structure ResultEntry where
  tmpdir : List Char
  title : List Char
  dtype : List Char
  video_path : Option (List Char)
  file_path : Option (List Char)
  filename : Option (List Char)
deriving DecidableEq

/-- The `DownloadLog` fields read by `download_result`. -/
structure LogRow where
  user_id : Nat
  status : List Char
deriving DecidableEq

/-- `_job_results.get(job_id)`. -/
def lookupJob (results : List (Nat × ResultEntry)) (job_id : Nat) : Option ResultEntry :=
  (results.find? (fun p => p.1 == job_id)).map (·.2)

/-- Outcome of the `download_result` endpoint. -/
inductive FetchOutcome where
  | httpError (code : Nat) (detail : List Char) : FetchOutcome
  | serveFile (path filename media_type : List Char) : FetchOutcome
deriving DecidableEq

/-- `download_result` (main.py lines 388–420): ownership and status checks,
then a lookup in the transient table — the absent-entry message is the
"expired" error — then the file response.  The function reads `_job_results`
with `.get` and never mutates it, which the returned table makes explicit.
The filesystem is abstracted by `fileExists`. -/
def download_result (log : Option LogRow) (results : List (Nat × ResultEntry))
    (fileExists : List Char → Bool) (job_id user_id : Nat) :
    FetchOutcome × List (Nat × ResultEntry) :=
  match log with
  | none => (.httpError 404 (lc "找不到此下載任務"), results)
  | some l =>
    if l.user_id ≠ user_id then (.httpError 403 (lc "無權限"), results)
    else if l.status ≠ lc "done" then (.httpError 400 (lc "下載尚未完成或失敗"), results)
    else
      match lookupJob results job_id with
      | none => (.httpError 404 (lc "檔案已過期，請重新下載"), results)
      | some data =>
        let filename := data.filename.getD (lc "download")
        match data.video_path with
        | some p => (.serveFile p filename (lc "application/octet-stream"), results)
        | none =>
          match data.file_path with
          | none => (.httpError 404 (lc "檔案不存在"), results)
          | some p =>
            if !fileExists p then (.httpError 404 (lc "檔案不存在"), results)
            else
              (.serveFile p filename
                (if pathSuffix p = lc ".zip" then lc "application/zip"
                 else lc "application/x-subrip"), results)

/-- The shutdown half of `lifespan`: scratch directories are removed
best-effort and `_job_results.clear()` empties the table. -/
def lifespanShutdownClear (_results : List (Nat × ResultEntry)) :
    List (Nat × ResultEntry) := []

/-! ### Specification-side definitions for the refinement claims -/

/-- Map with the position index, starting at `i`. -/
def idxMap {α β} (f : Nat → α → β) : Nat → List α → List β
  | _, [] => []
  | i, a :: as => f i a :: idxMap f (i + 1) as

/-- No word character immediately to the left of position `i` in `packed`. -/
def leftFreeAt (packed : List Char) : Nat → Bool
  | 0 => true
  | j + 1 =>
    match packed[j]? with
    | some p => !isWordChar p
    | none => true

/-- No word character immediately to the right of position `i` in `packed`. -/
def rightFreeAt (packed : List Char) (i : Nat) : Bool :=
  match packed[i + 1]? with
  | some nx => !isWordChar nx
  | none => true

/-- The substitution at one position, written from the words of spec section
4.1: a digit `0`-`9` addresses indices 0–9 and a letter `a`-`e` addresses
10–14; a character so addressed and isolated at word boundaries is replaced
by the dictionary entry at that index, an index at or past the dictionary
length preserves the character, and every other character is untouched. -/
def specSubstAt (parts : List (List Char)) (packed : List Char) (i : Nat) (c : Char) :
    List Char :=
  match (if '0' ≤ c && c ≤ '9' then some (c.toNat - '0'.toNat)
         else if 'a' ≤ c && c ≤ 'e' then some (10 + (c.toNat - 'a'.toNat))
         else none : Option Nat) with
  | some n =>
    if leftFreeAt packed i && rightFreeAt packed i then
      (if n < parts.length then parts.getD n [c] else [c])
    else [c]
  | none => [c]

/-- The unpacker characterised positionally, from the words of the spec. -/
def specUnpack (packed dict_str : List Char) : List Char :=
  (idxMap (specSubstAt (splitChar '|' dict_str) packed) 0 packed).flatten

/-- ASCII lower-casing of a text. -/
def lowerAll (l : List Char) : List Char := l.map Char.toLower

/-- Case-insensitive prefix test. -/
def startsCI (p s : List Char) : Bool := (lowerAll p).isPrefixOf (lowerAll s)

/-- The eight URL shapes of claim C10: `http://` or `https://`, optional
`www.`, then `missav.ai/` or `missav.ws/` with the trailing slash. -/
def missavSpecPrefixes : List (List Char) :=
  [lc "https://www.missav.ai/", lc "https://www.missav.ws/",
   lc "https://missav.ai/", lc "https://missav.ws/",
   lc "http://www.missav.ai/", lc "http://www.missav.ws/",
   lc "http://missav.ai/", lc "http://missav.ws/"]

/-- The dispatch condition as claim C10 words it: after stripping surrounding
whitespace the URL begins, case-insensitively, with one of the eight
prefixes. -/
def missavSpecMatch (url : List Char) : Bool :=
  missavSpecPrefixes.any (fun p => startsCI p (stripWs url))

/-! ### Concrete fixtures used by counterexamples and witnesses -/

/-- The legacy fixture substring named by claim C1, as the whole page markup. -/
def fixtureLegacy : List Char :=
  lc "m3u8|1|2|3|4|5|com|surrit|https|video|ts|playlist|source"

/-- A legacy-shaped markup with distinct host and path tokens (claim C5). -/
def fixtureLegacyTokens : List Char :=
  lc "m3u8|a|b|c|d|e|f|g|https|video|ts|playlist|source"

/-- A markup carrying only the dictionary-only marker (claim C3). -/
def fixtureDictOnly : List Char :=
  lc "'m3u8|1|2|3|4|5|com|surrit|https|playlist'.split('|')"

/-- A markup in which the packed-eval strategy and the dictionary-only
strategy both succeed, with different URLs (claim C4). -/
def fixturePriority : List Char :=
  lc "\x7d('0',15,15,'https://a.com/v.m3u8|b'.split('|'))'m3u8|1|2|3|4|5|com|surrit|https|playlist'.split('|')"

/-- A fragment-progress event: `downloading`, no total, fragment 50 of 100. -/
def evFragment : DlEvent :=
  ⟨some (lc "downloading"), none, none, none, some 100, some 50⟩

/-- A bare `downloading` event with no usable progress information. -/
def evBare : DlEvent :=
  ⟨some (lc "downloading"), none, none, none, none, none⟩

/-- A later fragment-progress event, fragment 80 of 100. -/
def evFragment80 : DlEvent :=
  ⟨some (lc "downloading"), none, none, none, some 100, some 80⟩

/-- A cancellation predicate that fires from the second event on. -/
def cancelAtSecond (i : Nat) : Bool := decide (1 ≤ i)

/-- A completed video-job entry of the transient result table. -/
def resultEntryVideo : ResultEntry :=
  ⟨lc "/tmp/job1", lc "naac-032", lc "video", some (lc "/tmp/job1/naac-032.mkv"),
   none, some (lc "naac-032.mkv")⟩

/-- A `done` log row owned by user 7. -/
def logRowDone : LogRow := ⟨7, lc "done"⟩

/-- A result table holding the entry of job 1. -/
def resultTable1 : List (Nat × ResultEntry) := [(1, resultEntryVideo)]

/-! ### Theorems -/

/-- C1 counterexample: on the page markup consisting of the legacy fixture
substring itself, the extractor resolves through the legacy delimited
strategy and returns `https://surrit.com/5-4-3-2-1/ts/video.m3u8` — the
format string inserts the `ts` token and the literal `video` token — not the
`https://surrit.com/5-4-3-2-1/video.m3u8` the claim states; the derived
title is `naac-032` as claimed. -/
theorem C1_counterexample :
    _extract_missav_m3u8_and_title fixtureLegacy (lc "https://missav.ai/dm1/naac-032") =
      some (lc "https://surrit.com/5-4-3-2-1/ts/video.m3u8", lc "naac-032", none, none) ∧
    lc "https://surrit.com/5-4-3-2-1/ts/video.m3u8" ≠
      lc "https://surrit.com/5-4-3-2-1/video.m3u8" := by
  constructor
  · decide
  · decide

/-- C1 amended: for the source URL `https://missav.ai/dm1/naac-032` the
derived title is exactly `naac-032`, and for the page markup consisting of
the legacy fixture substring the extractor returns exactly
`https://surrit.com/5-4-3-2-1/ts/video.m3u8`. -/
theorem C1_amended :
    _missav_filename_from_url (lc "https://missav.ai/dm1/naac-032") = lc "naac-032" ∧
    _extract_missav_m3u8_and_title fixtureLegacy (lc "https://missav.ai/dm1/naac-032") =
      some (lc "https://surrit.com/5-4-3-2-1/ts/video.m3u8", lc "naac-032", none, none) := by
  constructor
  · decide
  · decide

-- On a fallback-shaped markup (no packed-eval call tail, a quoted fragment
-- before `;`), the packed strategy resolves through the fallback pattern:
-- group 1 captures the body together with its closing quote, the dictionary
-- is re-located from the match start, and unpacking the single code yields
-- the manifest URL, as a hand trace of the source's fallback branch gives.
example :
    packedPair (lc "'1';,15,15,'m3u8|https://a.com/v.m3u8|x'.split('|')") =
      some (lc "1'", lc "m3u8|https://a.com/v.m3u8|x") ∧
    _extract_missav_m3u8_from_packed
        (lc "'1';,15,15,'m3u8|https://a.com/v.m3u8|x'.split('|')") =
      some (lc "https://a.com/v.m3u8") := by
  constructor
  · decide
  · decide

/-- C4: the four strategies are consulted in strict priority order — packed
eval, dictionary-only, legacy delimited, generic scan — and the first
non-empty (Python-truthy) result is the value of the chain. -/
theorem C4_strategy_priority (w : List Char) :
    (∀ u, truthyOpt (_extract_missav_m3u8_from_packed w) = some u →
      missavM3u8Chain w = some u) ∧
    (∀ u, truthyOpt (_extract_missav_m3u8_from_packed w) = none →
      truthyOpt (_extract_missav_m3u8_from_dict_only w) = some u →
      missavM3u8Chain w = some u) ∧
    (∀ u, truthyOpt (_extract_missav_m3u8_from_packed w) = none →
      truthyOpt (_extract_missav_m3u8_from_dict_only w) = none →
      truthyOpt (legacyDelimited w) = some u →
      missavM3u8Chain w = some u) ∧
    (truthyOpt (_extract_missav_m3u8_from_packed w) = none →
      truthyOpt (_extract_missav_m3u8_from_dict_only w) = none →
      truthyOpt (legacyDelimited w) = none →
      missavM3u8Chain w = truthyOpt (missavGenericScan w)) := by
  refine ⟨fun u h1 => ?_, fun u h1 h2 => ?_, fun u h1 h2 h3 => ?_, fun h1 h2 h3 => ?_⟩
  · unfold missavM3u8Chain; rw [h1]
  · unfold missavM3u8Chain; rw [h1, h2]
  · unfold missavM3u8Chain; rw [h1, h2, h3]
  · unfold missavM3u8Chain; rw [h1, h2, h3]

/-- C4 witness: a markup in which the packed-eval strategy and the
dictionary-only strategy each individually succeed resolves to the
packed-eval URL, not the dictionary-only one. -/
theorem C4_witness :
    missavM3u8Chain fixturePriority = some (lc "https://a.com/v.m3u8") ∧
    truthyOpt (_extract_missav_m3u8_from_dict_only fixturePriority) =
      some (lc "https://surrit.com/5-4-3-2-1/playlist.m3u8") ∧
    lc "https://a.com/v.m3u8" ≠ lc "https://surrit.com/5-4-3-2-1/playlist.m3u8" :=
  ⟨(C4_strategy_priority fixturePriority).1 (lc "https://a.com/v.m3u8") (by decide),
   by decide, by decide⟩

/-- C5 counterexample: on the intervening token list
`a|b|c|d|e|f|g|https|video|ts` the legacy strategy returns
`https://g.f/e-d-c-b-a/ts/video.m3u8` — the format string
`"{0}://{1}/{2}/{3}/{4}.m3u8"` receives the token at the video index as a
fifth component — not the `https://g.f/e-d-c-b-a/ts.m3u8` the claimed shape
`<scheme>://<host>/<path>/<format>.m3u8` gives. -/
theorem C5_counterexample :
    legacyDelimited fixtureLegacyTokens = some (lc "https://g.f/e-d-c-b-a/ts/video.m3u8") ∧
    lc "https://g.f/e-d-c-b-a/ts/video.m3u8" ≠ lc "https://g.f/e-d-c-b-a/ts.m3u8" := by
  constructor
  · decide
  · decide

theorem pyGetI_ofNat {α} (l : List α) (i : Nat) : pyGetI l (i : Int) = l[i]? := by
  simp [pyGetI]

theorem pyGetI_natSub1 {α} (l : List α) (i : Nat) (h : 1 ≤ i) :
    pyGetI l ((i : Int) - 1) = l[i - 1]? := by
  have h0 : (0 : Int) ≤ (i : Int) - 1 := by omega
  have ht : ((i : Int) - 1).toNat = i - 1 := by omega
  simp [pyGetI, h0, ht]

theorem getElem?_eq_some_getD {α} (l : List α) (i : Nat) (d : α) (h : i < l.length) :
    l[i]? = some (l.getD i d) := by
  simp [List.getD_eq_getElem?_getD, List.getElem?_eq_getElem h]

/-- C5 amended: for every intervening token list in which `video` first
occurs at a position `vi` with `1 ≤ vi` and `vi + 1` in range, the legacy
strategy returns `<scheme>://<host>/<path>/<format>/video.m3u8` — with the
extra `video` path component the format string inserts — where scheme is the
token before `video`, host the tokens from position 5 up to one before
`video` reversed and dot-joined, path the first five tokens reversed and
dash-joined, and format the token after `video`. -/
theorem C5_legacy_amended (url_words : List (List Char)) (vi : Nat)
    (hfind : url_words.findIdx? (· == lc "video") = some vi)
    (h1 : 1 ≤ vi) (h2 : vi + 1 < url_words.length) :
    legacyCore url_words =
      some (url_words.getD (vi - 1) [] ++ lc "://" ++
        List.intercalate (lc ".") (pySliceI url_words 5 ((vi : Int) - 1)).reverse ++
        lc "/" ++ List.intercalate (lc "-") (pySliceI url_words 0 5).reverse ++
        lc "/" ++ url_words.getD (vi + 1) [] ++ lc "/video.m3u8") := by
  have hvi : vi < url_words.length := by omega
  have hvid : url_words.getD vi [] = lc "video" := by
    obtain ⟨h, hp, -⟩ := List.findIdx?_eq_some_iff_getElem.mp hfind
    have := beq_iff_eq.mp hp
    simp [List.getD_eq_getElem?_getD, List.getElem?_eq_getElem h, this]
  have e1 : pyGetI url_words ((vi : Int) - 1) = some (url_words.getD (vi - 1) []) := by
    rw [pyGetI_natSub1 _ _ h1, getElem?_eq_some_getD _ _ _ (by omega)]
  have e2 : pyGetI url_words ((vi : Int) + 1) = some (url_words.getD (vi + 1) []) := by
    have hc : ((vi : Int) + 1) = ((vi + 1 : Nat) : Int) := by omega
    rw [hc, pyGetI_ofNat, getElem?_eq_some_getD _ _ _ (by omega)]
  have e3 : pyGetI url_words (vi : Int) = some (url_words.getD vi []) := by
    rw [pyGetI_ofNat, getElem?_eq_some_getD _ _ _ hvi]
  have hv : lc "/" ++ (lc "video" ++ lc ".m3u8") = lc "/video.m3u8" := by decide
  simp only [legacyCore, hfind, e1, e2, e3, hvid]
  simp only [List.append_assoc]
  rw [hv]

/-- C5 witness: the amended legacy formula applied to the concrete token
list `a|b|c|d|e|f|g|https|video|ts`. -/
theorem C5_witness :
    legacyCore [lc "a", lc "b", lc "c", lc "d", lc "e", lc "f", lc "g",
      lc "https", lc "video", lc "ts"] =
      some (lc "https://g.f/e-d-c-b-a/ts/video.m3u8") := by
  have h := C5_legacy_amended
    [lc "a", lc "b", lc "c", lc "d", lc "e", lc "f", lc "g",
      lc "https", lc "video", lc "ts"] 8 (by decide) (by decide) (by decide)
  exact h.trans (by decide)

/-- C6 counterexample: a fragment event reports percent 50, a following
`downloading` event with no total, no percent string and no fragment pair
reports percent 0 — the hook is stateless and defaults to 0 — so the stored
job progress regresses from 50 to 0 instead of staying at its last value. -/
theorem C6_counterexample :
    hookEmit evFragment = some (50, lc "下載中…") ∧
    hookEmit evBare = some (0, lc "下載中…") ∧
    progressFold [evFragment] = 50 ∧
    progressFold [evFragment, evBare] = 0 := by
  refine ⟨by decide, by decide, by decide, by decide⟩

/-- C6 amended: on a `downloading` event with no truthy total size, no
parsable embedded percent string and no usable fragment pair, the percent
reported to the callback is 0 — the hook keeps no state and regresses the
job progress to 0 — with the generic in-progress message. -/
theorem C6_amended (d : DlEvent)
    (hst : d.status = some (lc "downloading"))
    (htot : d.total_bytes = none ∨ d.total_bytes = some 0)
    (hps : reSearch rePercent ((truthyOpt d.percent_str).getD []) = none)
    (hfrag : d.fragment_count = none ∨ d.fragment_count = some 0 ∨
      d.fragment_index = none) :
    hookEmit d = some (0, (truthyOpt d.percent_str).getD (lc "下載中…")) := by
  have hnt : hookNoTotal d = some (0, (truthyOpt d.percent_str).getD (lc "下載中…")) := by
    unfold hookNoTotal
    rw [hps]
    rcases hfrag with h | h | h
    · rw [h]
    · rw [h]
      rcases hfi : d.fragment_index with _ | fi <;> rfl
    · rw [h]
      rcases hfc : d.fragment_count with _ | fc <;> rfl
  unfold hookEmit
  rw [hst]
  rcases htot with h | h <;> rw [h] <;> simp [hnt]

/-- C6 witness: the amended statement at the concrete bare event. -/
theorem C6_witness : hookEmit evBare = some (0, lc "下載中…") := by
  have h := C6_amended evBare (by decide) (Or.inl (by decide)) (by decide)
    (Or.inl (by decide))
  exact h.trans (by decide)

theorem runHookLoop_fires (cancelled : Nat → Bool) :
    ∀ (events : List DlEvent) (i k : Nat), k < events.length →
      cancelled (i + k) = true → (∀ j, j < k → cancelled (i + j) = false) →
      runHookLoop cancelled i events = ((events.take k).filterMap hookEmit, true) := by
  intro events
  induction events with
  | nil => intro i k hk _ _; simp at hk
  | cons e rest ih =>
    intro i k hk hfire hbefore
    match k with
    | 0 =>
      simp only [Nat.add_zero] at hfire
      simp [runHookLoop, hfire]
    | k + 1 =>
      have h0 : cancelled i = false := by
        have := hbefore 0 (Nat.succ_pos k)
        simpa using this
      have hr : runHookLoop cancelled (i + 1) rest = ((rest.take k).filterMap hookEmit, true) := by
        apply ih (i + 1) k
        · simpa using Nat.lt_of_succ_lt_succ hk
        · have : i + 1 + k = i + (k + 1) := by omega
          rw [this]; exact hfire
        · intro j hj
          have : i + 1 + j = i + (j + 1) := by omega
          rw [this]; exact hbefore (j + 1) (by omega)
      simp only [runHookLoop, h0, Bool.false_eq_true, if_false, hr, List.take_succ_cons,
        List.filterMap_cons]
      cases hookEmit e <;> simp

/-- C7 counterexample: with a predicate firing from the second event on, the
transfer aborts after one delivered callback and the job ends in status
`error` — but with the empty message: `DownloadCancelled` is raised with no
arguments and `_run_download_job` stores `str(e)`, so no text indicating
cancellation reaches the job. -/
theorem C7_counterexample :
    jobCancelOutcome cancelAtSecond [evFragment, evFragment80, evFragment80] =
      ([(50, lc "下載中…")], some (lc "error", downloadCancelledText)) ∧
    downloadCancelledText = [] ∧
    downloadCancelledText ≠ lc "使用者已取消下載" := by
  refine ⟨by decide, rfl, by decide⟩

/-- C7 amended: whenever the injected predicate first fires at event `k`, the
hook raises before processing that event, only the first `k` events produce
callbacks, and the job terminates in status `error` with the empty message
(the string form of the argument-less `DownloadCancelled`). -/
theorem C7_amended (cancelled : Nat → Bool) (events : List DlEvent) (k : Nat)
    (hk : k < events.length) (hfire : cancelled k = true)
    (hbefore : ∀ j, j < k → cancelled j = false) :
    jobCancelOutcome cancelled events =
      ((events.take k).filterMap hookEmit, some (lc "error", downloadCancelledText)) := by
  unfold jobCancelOutcome
  rw [runHookLoop_fires cancelled events 0 k hk (by simpa using hfire)
    (by intro j hj; simpa using hbefore j hj)]
  rfl

/-- C7 witness: the amended statement at the concrete three-event run with
cancellation from the second event on. -/
theorem C7_witness :
    jobCancelOutcome cancelAtSecond [evFragment, evFragment80, evFragment80] =
      ([(50, lc "下載中…")], some (lc "error", downloadCancelledText)) := by
  have h := C7_amended cancelAtSecond [evFragment, evFragment80, evFragment80] 1
    (by decide) (by decide)
    (by intro j hj; have hj0 : j = 0 := (by omega); rw [hj0]; decide)
  exact h.trans (by decide)

/-- C8 counterexample: serving a completed job leaves its entry in the
transient table — `download_result` reads `_job_results` with `.get` and
never removes anything — so a second `fetch_result` for the same job serves
the file again instead of reporting the expired error. -/
theorem C8_counterexample :
    (download_result (some logRowDone) resultTable1 (fun _ => true) 1 7).1 =
      .serveFile (lc "/tmp/job1/naac-032.mkv") (lc "naac-032.mkv")
        (lc "application/octet-stream") ∧
    (download_result (some logRowDone) resultTable1 (fun _ => true) 1 7).2 =
      resultTable1 ∧
    (download_result (some logRowDone)
        ((download_result (some logRowDone) resultTable1 (fun _ => true) 1 7).2)
        (fun _ => true) 1 7).1 =
      .serveFile (lc "/tmp/job1/naac-032.mkv") (lc "naac-032.mkv")
        (lc "application/octet-stream") ∧
    FetchOutcome.serveFile (lc "/tmp/job1/naac-032.mkv") (lc "naac-032.mkv")
        (lc "application/octet-stream") ≠
      .httpError 404 (lc "檔案已過期，請重新下載") := by
  refine ⟨by decide, by decide, by decide, by decide⟩

/-- C8 amended: `download_result` never mutates the transient result table —
entries are removed only at process shutdown — and the expired error is
reported exactly when a done, owned job has no table entry; while the entry
is present, every fetch serves it again. -/
theorem C8_amended (log : Option LogRow) (results : List (Nat × ResultEntry))
    (fileExists : List Char → Bool) (job_id user_id : Nat) :
    (download_result log results fileExists job_id user_id).2 = results ∧
    (∀ l, log = some l → l.user_id = user_id → l.status = lc "done" →
      lookupJob results job_id = none →
      (download_result log results fileExists job_id user_id).1 =
        .httpError 404 (lc "檔案已過期，請重新下載")) ∧
    lifespanShutdownClear results = [] := by
  refine ⟨?_, ?_, rfl⟩
  · unfold download_result
    repeat' split
    all_goals rfl
  · intro l hlog hu hs hlk
    subst hlog
    simp only [download_result]
    rw [if_neg (not_not_intro hu), if_neg (not_not_intro hs), hlk]

/-- C8 witness: the amended statement at a concrete done job with no table
entry — the expired error — discharging the hypotheses of the theorem. -/
theorem C8_witness :
    (download_result (some logRowDone) [] (fun _ => true) 1 7).1 =
      .httpError 404 (lc "檔案已過期，請重新下載") :=
  (C8_amended (some logRowDone) [] (fun _ => true) 1 7).2.1 logRowDone rfl
    (by decide) (by decide) (by decide)


/-- C3: when the dictionary-only pattern matches and the token list —
`m3u8|` plus group 1, split on `|` — contains both `https` and `playlist`,
the first `com` lies strictly before the first `https` with at least one
token between them, and at least six tokens exist, the strategy returns
`https://<origin>/<path>/playlist.m3u8` with the origin the slice from `com`
inclusive to `https` exclusive reversed and dot-joined, and the path the
tokens at positions 1 through 5 reversed and dash-joined; if any of these
preconditions fails the strategy returns nothing (no exception is possible:
the source's guards make the except branch unreachable). -/
theorem C3_dict_only_reconstruction
    (webpage g m : List Char) (s : Nat) (caps : Caps) (parts : List (List Char))
    (hsearch : reSearch reDictOnly webpage = some (s, m, caps))
    (hcap : getCap 1 caps = some g)
    (hparts : parts = splitChar '|' (lc "m3u8|" ++ g)) :
    (∀ idx_https idx_com,
      parts.contains (lc "https") = true →
      parts.contains (lc "playlist") = true →
      parts.findIdx? (· == lc "https") = some idx_https →
      parts.findIdx? (· == lc "com") = some idx_com →
      idx_com + 2 ≤ idx_https →
      6 ≤ parts.length →
      _extract_missav_m3u8_from_dict_only webpage =
        some (lc "https://" ++
          List.intercalate (lc ".") (pySliceI parts idx_com idx_https).reverse ++
          lc "/" ++ List.intercalate (lc "-") (pySliceI parts 1 6).reverse ++
          lc "/playlist.m3u8")) ∧
    (¬ (∃ idx_https idx_com,
        parts.contains (lc "https") = true ∧
        parts.contains (lc "playlist") = true ∧
        parts.findIdx? (· == lc "https") = some idx_https ∧
        parts.findIdx? (· == lc "com") = some idx_com ∧
        idx_com + 2 ≤ idx_https ∧
        6 ≤ parts.length) →
      _extract_missav_m3u8_from_dict_only webpage = none) := by
  have hbase : _extract_missav_m3u8_from_dict_only webpage = dictOnlyFromParts parts := by
    simp only [_extract_missav_m3u8_from_dict_only, hsearch, hcap]
    rw [hparts]
  constructor
  · intro ih ic h1 h2 h3 h4 h5 h6
    rw [hbase]
    simp only [dictOnlyFromParts, h1, h2, h3, h4, Bool.and_self, if_true]
    rw [if_neg (by simp only [Bool.or_eq_true, decide_eq_true_eq, not_or]; omega)]
    rw [if_pos h6]
  · intro hnot
    rw [hbase]
    unfold dictOnlyFromParts
    rcases hh : parts.contains (lc "https") with _ | _
    · rfl
    · rcases hp : parts.contains (lc "playlist") with _ | _
      · rfl
      · simp only [hh, hp, Bool.and_self, if_true]
        rcases hfh : parts.findIdx? (· == lc "https") with _ | ih
        · rfl
        · rcases hfc : parts.findIdx? (· == lc "com") with _ | ic
          · rfl
          · rcases hcond : (decide (ic ≥ ih) || decide (ih - ic < 2)) with _ | _
            · rcases hlen : decide (6 ≤ parts.length) with _ | _
              · simp only [hcond, Bool.false_eq_true, if_false]
                rw [if_neg (by simpa using hlen)]
              · exfalso
                apply hnot
                simp only [Bool.or_eq_false_iff, decide_eq_false_iff_not] at hcond
                exact ⟨ih, ic, hh, hp, hfh, hfc, by omega, by simpa using hlen⟩
            · simp only [hcond, if_true]

/-- C3 witness: the reconstruction applied to a concrete dictionary-only
markup, yielding `https://surrit.com/5-4-3-2-1/playlist.m3u8`. -/
theorem C3_witness :
    _extract_missav_m3u8_from_dict_only fixtureDictOnly =
      some (lc "https://surrit.com/5-4-3-2-1/playlist.m3u8") := by
  have h := (C3_dict_only_reconstruction fixtureDictOnly
      (lc "1|2|3|4|5|com|surrit|https|playlist")
      fixtureDictOnly 0
      [(1, lc "1|2|3|4|5|com|surrit|https|playlist")]
      (splitChar '|' (lc "m3u8|" ++ lc "1|2|3|4|5|com|surrit|https|playlist"))
      (by decide) (by decide) rfl).1 8 6
      (by decide) (by decide) (by decide) (by decide) (by decide) (by decide)
  exact h.trans (by decide)


theorem okBoundary_getElem (packed : List Char) (k : Nat) :
    okBoundary packed[k + 1]? = rightFreeAt packed k := by
  rcases h : packed[k + 1]? with _ | nx <;> simp [okBoundary, rightFreeAt, h]

theorem substChunk_eq (parts : List (List Char)) (packed : List Char) (k : Nat)
    (c : Char) (prev : Option Char) (next : Option Char)
    (hb : okBoundary prev = leftFreeAt packed k)
    (hn : next = packed[k + 1]?) :
    (if isSubCode c && okBoundary prev && okBoundary next then unpackRepl parts c
     else [c]) = specSubstAt parts packed k c := by
  rw [hb, hn, okBoundary_getElem]
  unfold specSubstAt unpackRepl isSubCode
  by_cases hd : ('0' ≤ c && c ≤ '9') = true
  · have hdig : c.isDigit = true := hd
    simp only [hd, hdig, Bool.true_or, Bool.true_and, if_true]
  · by_cases he : ('a' ≤ c && c ≤ 'e') = true
    · have hdig : c.isDigit = false := by
        rw [show c.isDigit = ('0' ≤ c && c ≤ '9') from rfl]
        simpa using hd
      simp only [hd, he, Bool.false_or, Bool.true_and, hdig, Bool.false_eq_true, if_false]
      by_cases hfree : (leftFreeAt packed k && rightFreeAt packed k) = true
      · simp [hfree]
      · simp only [Bool.not_eq_true] at hfree
        simp [hfree]
    · simp only [Bool.not_eq_true] at hd he
      simp [hd, he]

theorem unpackGo_spec (parts : List (List Char)) (packed : List Char) :
    ∀ (rest : List Char) (k : Nat) (prev : Option Char),
      rest = packed.drop k →
      okBoundary prev = leftFreeAt packed k →
      unpackGo parts prev rest = (idxMap (specSubstAt parts packed) k rest).flatten := by
  intro rest
  induction rest with
  | nil => intro k prev _ _; rfl
  | cons c rest' ihr =>
    intro k prev hrest hb
    have hck : packed[k]? = some c := by
      have h0 : (packed.drop k)[0]? = packed[k + 0]? := List.getElem?_drop packed k 0
      rw [← hrest] at h0
      simpa using h0.symm
    have hrest' : rest' = packed.drop (k + 1) := by
      have hd : packed.drop (k + 1) = List.drop 1 (packed.drop k) := by
        rw [List.drop_drop]
      rw [hd, ← hrest]
      rfl
    have hhead : rest'.head? = packed[k + 1]? := by
      rw [hrest']
      exact List.head?_drop packed (k + 1)
    have hbnext : okBoundary (some c) = leftFreeAt packed (k + 1) := by
      simp [leftFreeAt, hck, okBoundary]
    simp only [unpackGo, idxMap, List.flatten_cons]
    rw [substChunk_eq parts packed k c prev rest'.head? hb hhead,
      ihr (k + 1) (some c) hrest' hbnext]

/-- C2: the unpacker equals its positional specification — each character of
the packed text that is a single `0`-`9` or `a`-`e` isolated at word
boundaries is replaced by the `|`-separated dictionary entry at index 0-9
(digits) or 10-14 (letters); an index at or past the dictionary length, a
character outside the alphabet, or one embedded in a longer alphanumeric run
is left unchanged.  Both sides are total Lean functions of the input pair,
so the mapping is deterministic, pure and never raises. -/
theorem C2_unpack_matches_spec (packed dict_str : List Char) :
    _unpack_missav_packed_js packed dict_str = specUnpack packed dict_str := by
  unfold _unpack_missav_packed_js specUnpack
  exact unpackGo_spec (splitChar '|' dict_str) packed packed 0 none rfl rfl

theorem pathLe_total : ∀ a b : List Char, pathLe a b = true ∨ pathLe b a = true := by
  intro a
  induction a with
  | nil => intro b; left; rfl
  | cons x xs ih =>
    intro b
    cases b with
    | nil => right; rfl
    | cons y ys =>
      by_cases hxy : x = y
      · subst hxy
        rcases ih ys with h | h
        · left; simpa [pathLe] using h
        · right; simpa [pathLe] using h
      · rcases lt_trichotomy x y with h | h | h
        · left; simp [pathLe, hxy, h]
        · exact absurd h hxy
        · right; simp [pathLe, Ne.symm hxy, h]

theorem pathLe_trans :
    ∀ a b c : List Char, pathLe a b = true → pathLe b c = true → pathLe a c = true := by
  intro a
  induction a with
  | nil => intro b c _ _; rfl
  | cons x xs ih =>
    intro b c hab hbc
    cases b with
    | nil => simp [pathLe] at hab
    | cons y ys =>
      cases c with
      | nil => simp [pathLe] at hbc
      | cons z zs =>
        by_cases hxy : x = y <;> by_cases hyz : y = z
        · subst hxy; subst hyz
          simp only [pathLe, if_pos rfl] at hab hbc ⊢
          exact ih ys zs hab hbc
        · subst hxy
          simp only [pathLe, if_pos rfl, if_neg hyz] at hbc ⊢
          exact hbc
        · subst hyz
          simp only [pathLe, if_neg hxy] at hab ⊢
          exact hab
        · simp only [pathLe, if_neg hxy, decide_eq_true_eq] at hab
          simp only [pathLe, if_neg hyz, decide_eq_true_eq] at hbc
          have hxz : x < z := lt_trans hab hbc
          simp [pathLe, ne_of_lt hxz, hxz]

theorem pathLe_antisymm :
    ∀ a b : List Char, pathLe a b = true → pathLe b a = true → a = b := by
  intro a
  induction a with
  | nil =>
    intro b _ hba
    cases b with
    | nil => rfl
    | cons y ys => simp [pathLe] at hba
  | cons x xs ih =>
    intro b hab hba
    cases b with
    | nil => simp [pathLe] at hab
    | cons y ys =>
      by_cases hxy : x = y
      · subst hxy
        simp only [pathLe, if_pos rfl] at hab hba
        rw [ih ys hab hba]
      · simp only [pathLe, if_neg hxy, decide_eq_true_eq] at hab
        simp only [pathLe, if_neg (Ne.symm hxy), decide_eq_true_eq] at hba
        exact absurd (lt_trans hab hba) (lt_irrefl x)

instance : IsAntisymm (List Char) (fun a b => pathLe a b = true) :=
  ⟨fun a b => pathLe_antisymm a b⟩

theorem insertPath_perm (x : List Char) :
    ∀ l : List (List Char), (insertPath x l).Perm (x :: l) := by
  intro l
  induction l with
  | nil => exact List.Perm.refl _
  | cons y ys ih =>
    by_cases h : pathLe x y = true
    · simp [insertPath, h]
    · simp only [insertPath, h, if_false, Bool.false_eq_true]
      exact (List.Perm.cons y ih).trans (List.Perm.swap x y ys)

theorem sortPaths_perm (l : List (List Char)) : (sortPaths l).Perm l := by
  induction l with
  | nil => exact List.Perm.refl _
  | cons a l ih =>
    exact (insertPath_perm a (sortPaths l)).trans (List.Perm.cons a ih)

theorem insertPath_sorted (x : List Char) :
    ∀ l : List (List Char), l.Sorted (fun a b => pathLe a b = true) →
      (insertPath x l).Sorted (fun a b => pathLe a b = true) := by
  intro l
  induction l with
  | nil => intro _; simp [insertPath]
  | cons y ys ih =>
    intro hs
    rw [List.sorted_cons] at hs
    obtain ⟨hy, hys⟩ := hs
    by_cases h : pathLe x y = true
    · simp only [insertPath, h, if_true]
      rw [List.sorted_cons]
      refine ⟨?_, by rw [List.sorted_cons]; exact ⟨hy, hys⟩⟩
      intro b hb
      rcases List.mem_cons.mp hb with rfl | hb
      · exact h
      · exact pathLe_trans x y b h (hy b hb)
    · simp only [insertPath, h, if_false, Bool.false_eq_true]
      rw [List.sorted_cons]
      refine ⟨?_, ih hys⟩
      intro b hb
      have hmem := (insertPath_perm x ys).mem_iff.mp hb
      rcases List.mem_cons.mp hmem with rfl | hb'
      · rcases pathLe_total y b with hyx | hxy2
        · exact hyx
        · exact absurd hxy2 h
      · exact hy b hb'

theorem sortPaths_sorted (l : List (List Char)) :
    (sortPaths l).Sorted (fun a b => pathLe a b = true) := by
  induction l with
  | nil => simp [sortPaths]
  | cons a l ih => exact insertPath_sorted a (sortPaths l) ih

theorem sortPaths_eq_of_perm (l l' : List (List Char)) (h : l.Perm l') :
    sortPaths l = sortPaths l' :=
  List.eq_of_perm_of_sorted
    (((sortPaths_perm l).trans h).trans (sortPaths_perm l').symm)
    (sortPaths_sorted l) (sortPaths_sorted l')

theorem vid_sub_disjoint (e : List Char) :
    VIDEO_EXTS.contains e = true → SUB_EXTS.contains e = false := by
  intro h
  have hm : e ∈ VIDEO_EXTS := by simpa using h
  simp only [VIDEO_EXTS, List.mem_cons, List.not_mem_nil, or_false] at hm
  rcases hm with rfl | rfl | rfl | rfl | rfl | rfl | rfl <;> decide

theorem splitGo_some (isFile : List Char → Bool) (x : List Char) :
    ∀ (cs : List (List Char)) (s : List (List Char)),
      splitGo isFile cs (some x) s =
        (some x, s ++ cs.filter (fun f => isFile f && SUB_EXTS.contains (extLower f))) := by
  intro cs
  induction cs with
  | nil => intro s; simp [splitGo]
  | cons f rest ih =>
    intro s
    by_cases hf : isFile f = true
    · by_cases hsub : extLower f ∈ SUB_EXTS
      · simp [splitGo, hf, hsub, ih, List.filter_cons]
      · simp [splitGo, hf, hsub, ih, List.filter_cons]
    · simp [splitGo, hf, ih, List.filter_cons]

theorem splitGo_none (isFile : List Char → Bool) :
    ∀ (cs : List (List Char)) (s : List (List Char)),
      splitGo isFile cs none s =
        (cs.find? (fun f => isFile f && VIDEO_EXTS.contains (extLower f)),
         s ++ cs.filter (fun f => isFile f && SUB_EXTS.contains (extLower f))) := by
  intro cs
  induction cs with
  | nil => intro s; simp [splitGo]
  | cons f rest ih =>
    intro s
    by_cases hf : isFile f = true
    · by_cases hvid : extLower f ∈ VIDEO_EXTS
      · have hsub : extLower f ∉ SUB_EXTS := by
          have := vid_sub_disjoint (extLower f) (by simpa using hvid)
          simpa using this
        simp [splitGo, hf, hvid, hsub, splitGo_some, List.find?_cons, List.filter_cons]
      · by_cases hsub : extLower f ∈ SUB_EXTS
        · simp [splitGo, hf, hvid, hsub, ih, List.find?_cons, List.filter_cons]
        · simp [splitGo, hf, hvid, hsub, ih, List.find?_cons, List.filter_cons]
    · simp [splitGo, hf, ih, List.find?_cons, List.filter_cons]

/-- C9: classification is invariant under permutation of the input file list,
and is characterised on the sorted list: the primary media file is the first
(lexicographically least) regular file whose lowered extension is in the
media set, the subtitle list consists of all regular files whose lowered
extension is in the subtitle set in sorted order, and files matching neither
set are ignored. -/
theorem C9_classify_permutation_invariant (isFile : List Char → Bool)
    (l l' : List (List Char)) (hperm : l.Perm l') :
    _split_video_and_subs isFile l = _split_video_and_subs isFile l' ∧
    _split_video_and_subs isFile l =
      ((sortPaths l).find? (fun f => isFile f && VIDEO_EXTS.contains (extLower f)),
       (sortPaths l).filter (fun f => isFile f && SUB_EXTS.contains (extLower f))) := by
  have hchar : ∀ m : List (List Char),
      _split_video_and_subs isFile m =
        ((sortPaths m).find? (fun f => isFile f && VIDEO_EXTS.contains (extLower f)),
         (sortPaths m).filter (fun f => isFile f && SUB_EXTS.contains (extLower f))) := by
    intro m
    unfold _split_video_and_subs
    rw [splitGo_none]
    simp
  refine ⟨?_, hchar l⟩
  rw [hchar l, hchar l', sortPaths_eq_of_perm l l' hperm]

/-- C9 witness: the permutation invariance at a concrete reordered file
list. -/
theorem C9_witness :
    _split_video_and_subs (fun _ => true) [lc "b.srt", lc "a.mp4", lc "c.vtt"] =
      _split_video_and_subs (fun _ => true) [lc "c.vtt", lc "b.srt", lc "a.mp4"] ∧
    _split_video_and_subs (fun _ => true) [lc "b.srt", lc "a.mp4", lc "c.vtt"] =
      (some (lc "a.mp4"), [lc "b.srt", lc "c.vtt"]) :=
  ⟨(C9_classify_permutation_invariant (fun _ => true)
      [lc "b.srt", lc "a.mp4", lc "c.vtt"] [lc "c.vtt", lc "b.srt", lc "a.mp4"]
      (by decide)).1,
   by decide⟩

theorem obFirst_isSome {α} (x y : Option α) :
    (obFirst x y).isSome = (x.isSome || y.isSome) := by
  cases x <;> simp [obFirst]

theorem isSome_iteNone {α} (b : Bool) (x : Option α) :
    (if b = true then x else none).isSome = (b && x.isSome) := by
  cases b <;> simp

theorem startsCI_cons (x : Char) (s' : List Char) (c : Char) (cs' : List Char) :
    startsCI (x :: s') (c :: cs') = ((x.toLower == c.toLower) && startsCI s' cs') := by
  simp [startsCI, lowerAll, List.isPrefixOf]

theorem reMatch_ciLit {α} (s : List Char) :
    ∀ (cs : List Char) (caps : Caps) (k : List Char → Caps → Option α),
      reMatch (ciLit s) cs caps k =
        if startsCI s cs = true then k (cs.drop s.length) caps else none := by
  induction s with
  | nil =>
    intro cs caps k
    simp [ciLit, reMatch, startsCI, lowerAll]
  | cons x s' ih =>
    intro cs caps k
    have hstep : ciLit (x :: s') = .seq (ciChr x) (ciLit s') := rfl
    rw [hstep]
    cases cs with
    | nil =>
      simp [reMatch, ciChr, startsCI, lowerAll, List.isPrefixOf]
    | cons c cs' =>
      show reMatch (ciChr x) (c :: cs') caps
          (fun cs'' caps'' => reMatch (ciLit s') cs'' caps'' k) = _
      by_cases hx : (c.toLower == x.toLower) = true
      · have hx' : (x.toLower == c.toLower) = true := by
          rw [beq_iff_eq] at hx ⊢
          exact hx.symm
        show (if (c.toLower == x.toLower) = true then
            reMatch (ciLit s') cs' caps k else none) = _
        rw [if_pos hx, ih cs' caps k, startsCI_cons, hx']
        simp
      · have hx' : (x.toLower == c.toLower) = false := by
          have hne : ¬(x.toLower = c.toLower) := fun he => hx (by rw [beq_iff_eq]; exact he.symm)
          exact beq_eq_false_iff_ne.mpr hne
        show (if (c.toLower == x.toLower) = true then
            reMatch (ciLit s') cs' caps k else none) = _
        rw [if_neg hx, startsCI_cons, hx']
        simp

theorem startsCI_append (a : List Char) :
    ∀ (b cs : List Char),
      startsCI (a ++ b) cs = (startsCI a cs && startsCI b (cs.drop a.length)) := by
  induction a with
  | nil =>
    intro b cs
    simp [startsCI, lowerAll]
  | cons x a' ih =>
    intro b cs
    cases cs with
    | nil =>
      simp [startsCI, lowerAll, List.isPrefixOf]
    | cons c cs' =>
      simp only [List.cons_append, startsCI_cons, List.length_cons, List.drop_succ_cons,
        ih b cs', Bool.and_assoc]


theorem reMatch_seq_ciLit {α} (s : List Char) (r : RE) (cs : List Char) (caps : Caps)
    (k : List Char → Caps → Option α) :
    reMatch (.seq (ciLit s) r) cs caps k =
      if startsCI s cs = true then reMatch r (cs.drop s.length) caps k else none := by
  show reMatch (ciLit s) cs caps (fun cs' caps' => reMatch r cs' caps' k) = _
  rw [reMatch_ciLit]

theorem reMatch_seq_optLit {α} (s : List Char) (r : RE) (cs : List Char) (caps : Caps)
    (k : List Char → Caps → Option α) :
    reMatch (.seq (.alt (ciLit s) .eps) r) cs caps k =
      obFirst (if startsCI s cs = true then reMatch r (cs.drop s.length) caps k else none)
        (reMatch r cs caps k) := by
  show obFirst (reMatch (ciLit s) cs caps (fun cs' caps' => reMatch r cs' caps' k))
      (reMatch .eps cs caps (fun cs' caps' => reMatch r cs' caps' k)) = _
  rw [reMatch_ciLit]
  rfl

theorem reMatch_seq_altLit {α} (a b : List Char) (r : RE) (cs : List Char) (caps : Caps)
    (k : List Char → Caps → Option α) :
    reMatch (.seq (.alt (ciLit a) (ciLit b)) r) cs caps k =
      obFirst (if startsCI a cs = true then reMatch r (cs.drop a.length) caps k else none)
        (if startsCI b cs = true then reMatch r (cs.drop b.length) caps k else none) := by
  show obFirst (reMatch (ciLit a) cs caps (fun cs' caps' => reMatch r cs' caps' k))
      (reMatch (ciLit b) cs caps (fun cs' caps' => reMatch r cs' caps' k)) = _
  rw [reMatch_ciLit, reMatch_ciLit]

theorem reMatch_eps {α} (cs : List Char) (caps : Caps)
    (k : List Char → Caps → Option α) : reMatch .eps cs caps k = k cs caps := rfl

theorem reMissav_eval (cs : List Char) :
    (reMatchHere reMissavUrl cs).isSome =
      missavSpecPrefixes.any (fun p => startsCI p cs) := by
  unfold reMatchHere reMissavUrl reCat
  simp only [List.foldr_cons, List.foldr_nil, optP]
  simp only [reMatch_seq_ciLit, reMatch_seq_optLit, reMatch_seq_altLit, reMatch_eps,
    obFirst_isSome, isSome_iteNone, Option.isSome_some, Bool.and_true]
  simp only [missavSpecPrefixes, List.any_cons, List.any_nil, Bool.or_false]
  rw [show lc "https://www.missav.ai/" =
    lc "http" ++ (lc "s" ++ (lc "://" ++ (lc "www." ++ (lc "missav." ++ (lc "ai" ++ lc "/"))))) from rfl]
  rw [show lc "https://www.missav.ws/" =
    lc "http" ++ (lc "s" ++ (lc "://" ++ (lc "www." ++ (lc "missav." ++ (lc "ws" ++ lc "/"))))) from rfl]
  rw [show lc "https://missav.ai/" =
    lc "http" ++ (lc "s" ++ (lc "://" ++ (lc "missav." ++ (lc "ai" ++ lc "/")))) from rfl]
  rw [show lc "https://missav.ws/" =
    lc "http" ++ (lc "s" ++ (lc "://" ++ (lc "missav." ++ (lc "ws" ++ lc "/")))) from rfl]
  rw [show lc "http://www.missav.ai/" =
    lc "http" ++ (lc "://" ++ (lc "www." ++ (lc "missav." ++ (lc "ai" ++ lc "/")))) from rfl]
  rw [show lc "http://www.missav.ws/" =
    lc "http" ++ (lc "://" ++ (lc "www." ++ (lc "missav." ++ (lc "ws" ++ lc "/")))) from rfl]
  rw [show lc "http://missav.ai/" =
    lc "http" ++ (lc "://" ++ (lc "missav." ++ (lc "ai" ++ lc "/"))) from rfl]
  rw [show lc "http://missav.ws/" =
    lc "http" ++ (lc "://" ++ (lc "missav." ++ (lc "ws" ++ lc "/"))) from rfl]
  simp only [startsCI_append]
  simp only [Bool.and_or_distrib_left, Bool.and_assoc, Bool.or_assoc]

/-- C10: a download is dispatched to the bespoke MissAV path exactly when the
source URL, stripped of surrounding whitespace, begins case-insensitively
with `http://` or `https://`, optionally `www.`, then exactly `missav.ai/`
or `missav.ws/` with the trailing slash; every other URL goes to the
delegate downloader. -/
theorem C10_missav_dispatch_iff (url : List Char) :
    dispatchTarget url = .missav ↔ missavSpecMatch url = true := by
  have he : _is_missav_url url = missavSpecMatch url := by
    unfold _is_missav_url missavSpecMatch
    exact reMissav_eval (stripWs url)
  unfold dispatchTarget
  rw [he]
  rcases h : missavSpecMatch url with _ | _
  · simp
  · simp
